import Mathlib

/-
  Verification development for the goFluentValidation rule engine
  (src/validator/validator.go): a struct validator driven by `validate`
  tags, with built-in rules (required, min, max, email, regex), a custom
  rule registry, and an aggregating error accumulator.

  The Go code is shallowly embedded: struct fields become a list of
  (name, tag, value) records, reflection kinds become the FieldValue
  inductive, and Go standard-library behaviour used by the code
  (strings.Split, strings.Trim, strconv.Atoi, regexp.MatchString,
  fmt formatting) is modelled by executable Lean functions over the
  subset of inputs the engine exercises.
-/

set_option maxRecDepth 8192

namespace GoFV

/-- A single validation error: the struct field's name and a message.
Embeds `ValidationError` from validator.go. -/
structure ValidationError where
  field : String
  message : String
deriving Repr, DecidableEq

/-- Embeds `ValidationErrors.Error()`: one clause `"field : message"` per
error, joined with `"; "` (fmt.Sprintf plus strings.Join). -/
def errorString (ve : List ValidationError) : String :=
  String.intercalate "; " (ve.map fun e => e.field ++ " : " ++ e.message)

/-- The value of a struct field as seen through reflection.  The engine
gives semantics to string-kind and int-kind fields. -/
inductive FieldValue where
  | str (s : String)
  | int (n : Int)
deriving Repr, DecidableEq

/-- Go `reflect.Value.String()`: the string itself for string kind; for a
non-string kind Go returns the placeholder `"<T Value>"`, here `int`. -/
def goString : FieldValue → String
  | .str s => s
  | .int _ => "<int Value>"

/-- Go `reflect.Value.IsZero()`: empty string, numeric zero. -/
def goIsZero : FieldValue → Bool
  | .str s => s == ""
  | .int n => n == 0

/-- Go `len` on a string: the number of UTF-8 bytes. -/
def goLen (s : String) : Nat :=
  s.data.foldl (fun a c => a + c.utf8Size) 0

/-- One struct field: its name, its `validate` tag (the empty string models
an absent tag, exactly as `reflect.StructTag.Get` reports it), its value. -/
structure Field where
  name : String
  tag : String
  value : FieldValue
deriving Repr, DecidableEq

/-- Go `strings.Split` with a one-character separator. -/
def splitChar (sep : Char) : List Char → List (List Char)
  | [] => [[]]
  | c :: rest =>
    match splitChar sep rest with
    | [] => [[]]
    | g :: gs => if c = sep then [] :: g :: gs else (c :: g) :: gs

/-- `strings.Split` lifted to Lean strings. -/
def goSplit (s : String) (sep : Char) : List String :=
  (splitChar sep s.data).map String.mk

/-- Go `strings.Trim(s, " ")`: leading and trailing space characters (only
the space character, U+0020) removed. -/
def goTrimSpace (s : String) : String :=
  String.mk (((s.data.dropWhile fun c => c = ' ').reverse.dropWhile fun c => c = ' ').reverse)

/-- Modelled from the spec: trimming of all whitespace around a token part
("Whitespace around name and parameter is trimmed").  Used only to compare
the spec's wording against the code's space-only trimming. -/
def wsTrim (s : String) : String :=
  String.mk (((s.data.dropWhile Char.isWhitespace).reverse.dropWhile Char.isWhitespace).reverse)

/-- Go `strconv.Atoi`: optional sign, one or more decimal digits, value
within the int64 range. -/
def goAtoi (s : String) : Option Int :=
  let core : Int → List Char → Option Int := fun sign ds =>
    if ds.isEmpty then none
    else if ds.all Char.isDigit then
      let v : Int := sign * (ds.foldl (fun a c => a * 10 + ((c.toNat : Int) - 48)) 0)
      if -(2 ^ 63) ≤ v ∧ v < 2 ^ 63 then some v else none
    else none
  match s.data with
  | '+' :: r => core 1 r
  | '-' :: r => core (-1) r
  | r => core 1 r

/-!  ## A model of Go's regexp package (RE2 subset)

The engine calls `regexp.MatchString(pattern, value)`, which reports
whether `value` CONTAINS any match of `pattern` (unanchored), and returns
an error (ignored by the engine) when the pattern does not compile.
We model the RE2 subset the engine's patterns use: literals, escapes,
character classes, `.`, postfix `*` `+` `?` `\x7bm\x7d` `\x7bm,\x7d`
`\x7bm,n\x7d`, plain groups, and `^` / `$` anchors at the pattern's ends.
The parser returns `none` both for patterns Go rejects (unterminated
class, reversed class range, trailing backslash, repetition without an
operand or with invalid counts) and for Go-valid constructs outside the
modelled subset (alternation, non-greedy quantifiers, letter classes such
as a digit escape, mid-pattern anchors, group flags); theorems about the
regex rule therefore quantify either over compiled patterns
(`parseGoRegex = some`, the faithful region) or over concrete genuinely
invalid patterns, never over the whole `none` set. -/

/-- Regular expressions over characters. -/
inductive Regex where
  | void
  | eps
  | cls (neg : Bool) (ranges : List (Char × Char))
  | seq (a b : Regex)
  | alt (a b : Regex)
  | star (r : Regex)
deriving Repr, DecidableEq

/-- Smart sequencing (language-preserving simplification). -/
def mkSeq : Regex → Regex → Regex
  | .void, _ => .void
  | .eps, b => b
  | _, .void => .void
  | a, .eps => a
  | a, b => .seq a b

/-- Smart alternation (language-preserving simplification). -/
def mkAlt : Regex → Regex → Regex
  | .void, b => b
  | a, .void => a
  | a, b => .alt a b

/-- Does the class (with optional negation) match a character? -/
def clsMatch (neg : Bool) (rs : List (Char × Char)) (c : Char) : Bool :=
  let inR := rs.any fun r => decide (r.1 ≤ c) && decide (c ≤ r.2)
  if neg then !inR else inR

/-- Does the regex accept the empty string? -/
def nullable : Regex → Bool
  | .void => false
  | .eps => true
  | .cls _ _ => false
  | .seq a b => nullable a && nullable b
  | .alt a b => nullable a || nullable b
  | .star _ => true

/-- Brzozowski derivative. -/
def deriv (c : Char) : Regex → Regex
  | .void => .void
  | .eps => .void
  | .cls n rs => if clsMatch n rs c then .eps else .void
  | .seq a b =>
    if nullable a then mkAlt (mkSeq (deriv c a) b) (deriv c b)
    else mkSeq (deriv c a) b
  | .alt a b => mkAlt (deriv c a) (deriv c b)
  | .star r => mkSeq (deriv c r) (.star r)

/-- Full match of a character list against a regex. -/
def rmatch (r : Regex) (cs : List Char) : Bool :=
  nullable (cs.foldl (fun r c => deriv c r) r)

/-- `.` matches any character except newline (RE2 default). -/
def dotRegex : Regex :=
  .cls true [('\n', '\n')]

/-- Escapes accepted after a backslash: `\n`, `\t`, and any
non-alphanumeric character escaped to itself. -/
def unescape (c : Char) : Option Char :=
  if c = 'n' then some '\n'
  else if c = 't' then some '\t'
  else if c.isAlphanum then none
  else some c

/-- Digits of a decimal number to a Nat. -/
def digitsToNat (ds : List Char) : Nat :=
  ds.foldl (fun a c => a * 10 + (c.toNat - 48)) 0

/-- Outcome of scanning the inside of a repetition spec. -/
inductive RepSpec where
  | notRep
  | bad
  | rep (lo : Nat) (hi : Option Nat) (rest : List Char)

/-- Scan a repetition spec after an opening brace: digits, optionally a
comma and more digits, then the closing brace.  Malformed syntax is not a
repetition — the brace stays literal text, as in Go.  Well-formed syntax
whose counts are invalid (lo above hi, or a count above 1000) is a
COMPILE ERROR in Go (ErrInvalidRepeatSize), reported as `bad`. -/
def parseRepeatSpec (cs : List Char) : RepSpec :=
  let (d1, cs1) := cs.span Char.isDigit
  if d1.isEmpty then .notRep
  else
    let lo := digitsToNat d1
    match cs1 with
    | '\x7d' :: rest => if lo ≤ 1000 then .rep lo (some lo) rest else .bad
    | ',' :: rest =>
      match rest with
      | '\x7d' :: rest2 => if lo ≤ 1000 then .rep lo none rest2 else .bad
      | _ =>
        let (d2, cs2) := rest.span Char.isDigit
        if d2.isEmpty then .notRep
        else
          let hi := digitsToNat d2
          match cs2 with
          | '\x7d' :: rest2 =>
            if lo ≤ hi ∧ hi ≤ 1000 then .rep lo (some hi) rest2 else .bad
          | _ => .notRep
    | _ => .notRep

/-- n-fold sequencing of a regex. -/
def repeatExact : Nat → Regex → Regex
  | 0, _ => .eps
  | n + 1, r => mkSeq r (repeatExact n r)

/-- n-fold optional sequencing of a regex. -/
def repeatOpt : Nat → Regex → Regex
  | 0, _ => .eps
  | n + 1, r => mkSeq (mkAlt .eps r) (repeatOpt n r)

/-- Apply a parsed repetition spec to an operand. -/
def applyRep (r : Regex) (lo : Nat) (hi : Option Nat) : Option Regex :=
  match hi with
  | none => some (mkSeq (repeatExact lo r) (.star r))
  | some h => if lo ≤ h then some (mkSeq (repeatExact lo r) (repeatOpt (h - lo) r)) else none

/-- Read one class atom (a literal or escaped character). -/
def readClassAtom : List Char → Option (Char × List Char)
  | '\\' :: c :: rest => (unescape c).map fun c2 => (c2, rest)
  | '\\' :: [] => none
  | c :: rest => some (c, rest)
  | [] => none

/-- Parse the items of a character class up to the closing bracket. -/
def parseClassBody : Nat → List (Char × Char) → List Char → Option (List (Char × Char) × List Char)
  | 0, _, _ => none
  | fuel + 1, acc, cs =>
    match cs with
    | ']' :: rest => some (acc, rest)
    | _ => do
      let (a, cs1) ← readClassAtom cs
      match cs1 with
      | '-' :: ']' :: rest => some (acc ++ [(a, a), ('-', '-')], rest)
      | '-' :: cs2 => do
        let (b, cs3) ← readClassAtom cs2
        if a ≤ b then parseClassBody fuel (acc ++ [(a, b)]) cs3 else none
      | _ => parseClassBody fuel (acc ++ [(a, a)]) cs1

/-- Parse a character class, after the opening bracket. -/
def parseClass (cs : List Char) : Option (Regex × List Char) :=
  let (neg, cs1) :=
    match cs with
    | '^' :: r => (true, r)
    | r => (false, r)
  let (acc0, cs2) :=
    match cs1 with
    | ']' :: r => ([((']' : Char), (']' : Char))], r)
    | r => (([] : List (Char × Char)), r)
  match parseClassBody (cs2.length + 1) acc0 cs2 with
  | some (rs, rest) => some (Regex.cls neg rs, rest)
  | none => none

mutual

/-- Parse a concatenation of atoms with optional postfix operators,
stopping at the end of input or at an unmatched closing parenthesis. -/
def parseSeq : Nat → List Char → Regex → Option (Regex × List Char)
  | 0, _, _ => none
  | fuel + 1, cs, acc =>
    match cs with
    | [] => some (acc, [])
    | ')' :: _ => some (acc, cs)
    | _ => do
      let (a, cs1) ← parseAtom fuel cs
      match cs1 with
      | '*' :: rest => parseSeq fuel rest (mkSeq acc (Regex.star a))
      | '+' :: rest => parseSeq fuel rest (mkSeq acc (mkSeq a (Regex.star a)))
      | '?' :: rest => parseSeq fuel rest (mkSeq acc (mkAlt Regex.eps a))
      | '\x7b' :: rest =>
        match parseRepeatSpec rest with
        | .rep lo hi rest2 => do
          let r ← applyRep a lo hi
          parseSeq fuel rest2 (mkSeq acc r)
        | .bad => none
        | .notRep => parseSeq fuel cs1 (mkSeq acc a)
      | _ => parseSeq fuel cs1 (mkSeq acc a)

/-- Parse one atom: a group, a class, a dot, an escape, or a literal. -/
def parseAtom : Nat → List Char → Option (Regex × List Char)
  | 0, _ => none
  | fuel + 1, cs =>
    match cs with
    | [] => none
    | '(' :: '?' :: _ => none
    | '(' :: rest => do
      let (r, cs1) ← parseSeq fuel rest Regex.eps
      match cs1 with
      | ')' :: cs2 => some (r, cs2)
      | _ => none
    | '[' :: rest => parseClass rest
    | '.' :: rest => some (dotRegex, rest)
    | '\\' :: c :: rest => do
      let c2 ← unescape c
      some (Regex.cls false [(c2, c2)], rest)
    | '\\' :: [] => none
    | '*' :: _ => none
    | '+' :: _ => none
    | '?' :: _ => none
    | '|' :: _ => none
    | '^' :: _ => none
    | '$' :: _ => none
    | '\x7b' :: rest =>
      match parseRepeatSpec rest with
      | .notRep => some (Regex.cls false [('\x7b', '\x7b')], rest)
      | _ => none
    | c :: rest => some (Regex.cls false [(c, c)], rest)

end

/-- A compiled pattern: optional start anchor, body, optional end anchor. -/
structure GoPattern where
  bol : Bool
  body : Regex
  eol : Bool
deriving Repr, DecidableEq

/-- Strip a leading `^` anchor. -/
def stripBOL : List Char → Bool × List Char
  | '^' :: r => (true, r)
  | r => (false, r)

/-- Strip a trailing `$` anchor (not an escaped `\$`). -/
def stripEOL (cs : List Char) : Bool × List Char :=
  match cs.reverse with
  | '$' :: rest =>
    if (rest.takeWhile fun c => c = '\\').length % 2 = 0 then (true, rest.reverse)
    else (false, cs)
  | _ => (false, cs)

/-- Compile a pattern string; `none` models a regexp compile error (or a
pattern outside the modelled subset). -/
def parseGoRegex (p : String) : Option GoPattern :=
  let (bol, cs1) := stripBOL p.data
  let (eol, cs2) := stripEOL cs1
  match parseSeq (cs2.length * 4 + 8) cs2 Regex.eps with
  | some (r, []) => some ⟨bol, r, eol⟩
  | _ => none

/-- All splittings of a list into a prefix and a suffix, in order. -/
def splits : List Char → List (List Char × List Char)
  | [] => [([], [])]
  | c :: cs => ([], c :: cs) :: (splits cs).map fun p => (c :: p.1, p.2)

/-- Go `regexp.MatchString` semantics for a compiled pattern: does the
text CONTAIN a match (a substring matching the body, constrained to start
at the beginning when `^` is present and to end at the end when `$` is)? -/
def goMatchString (gp : GoPattern) (cs : List Char) : Bool :=
  (splits cs).any fun pr =>
    (!gp.bol || pr.1.isEmpty) &&
    ((splits pr.2).any fun mp => rmatch gp.body mp.1 && (!gp.eol || mp.2.isEmpty))

/-- The fixed email pattern constant from validator.go. -/
def emailRegexPattern : String :=
  "^[a-zA-Z0-9._%+-]+@[a-zA-Z0-9.-]+\\.[a-zA-Z]\x7b2,\x7d$"

/-- Embeds `Validator.isMatchedRegex`: `regexp.MatchString` with the
compile error silently discarded (`matched, _ :=`), so a pattern that does
not compile behaves as "no match". -/
def isMatchedRegex (value pattern : String) : Bool :=
  match parseGoRegex pattern with
  | none => false
  | some gp => goMatchString gp value.data

/-- Embeds `Validator.validateMin`. -/
def validateMin (currentFieldVal : FieldValue) (minVlaue : String) : Option String :=
  match goAtoi minVlaue with
  | none => some "invalid min value"
  | some m =>
    match currentFieldVal with
    | .str s => if (goLen s : Int) < m then some ("length must be at least " ++ toString m) else none
    | .int n => if n < m then some ("value must be at least " ++ toString m) else none

/-- Embeds `Validator.validateMax`.  In the Go source the failure messages
are `fmt.Errorf("... must be at least %d", min)` where `min` is the
package-level STRING constant `"min"` (the local shadowing present in
`validateMin` does not occur here), so fmt renders the bad-verb text
`%!d(string=min)`. -/
def validateMax (currentFieldVal : FieldValue) (maxValue : String) : Option String :=
  match goAtoi maxValue with
  | none => some "invalid max value"
  | some mx =>
    match currentFieldVal with
    | .str s => if (goLen s : Int) > mx then some "length must be at least %!d(string=min)" else none
    | .int n => if n > mx then some "value must be at least %!d(string=min)" else none

/-- The switch statement of `Validator.applyValidationRule`, dispatching
on the already-trimmed rule name. -/
def ruleSwitch (ruleName ruleValue : String) (v : FieldValue) : Option String :=
  if ruleName = "required" then
    if goIsZero v then some "field is required" else none
  else if ruleName = "min" then validateMin v ruleValue
  else if ruleName = "max" then validateMax v ruleValue
  else if ruleName = "email" then
    if isMatchedRegex (goString v) emailRegexPattern then none else some "invalid email format"
  else if ruleName = "regex" then
    if isMatchedRegex (goString v) ruleValue then none else some "value does not match required format"
  else none

/-- The tokenisation step of `Validator.applyValidationRule`:
`strings.Split(rule, "=")`, name from `parts[0]`, parameter from
`parts[1]` when present (text after a second `=` is dropped), both trimmed
with `strings.Trim(_, " ")`. -/
def tokenizeRule (rule : String) : String × String :=
  (goTrimSpace ((goSplit rule '=').headD ""),
    match goSplit rule '=' with
    | _ :: p1 :: _ => goTrimSpace p1
    | _ => "")

/-- Embeds `Validator.applyValidationRule`. -/
def applyValidationRule (rule : String) (v : FieldValue) : Option String :=
  ruleSwitch (tokenizeRule rule).1 (tokenizeRule rule).2 v

/-- The inner loop of `Validator.validateFields`: apply every rule token
of one field, appending failures to the accumulator in token order. -/
def applyRulesAcc (acc : List ValidationError) (nm : String) (v : FieldValue) :
    List String → List ValidationError
  | [] => acc
  | r :: rs =>
    match applyValidationRule r v with
    | some msg => applyRulesAcc (acc ++ [⟨nm, msg⟩]) nm v rs
    | none => applyRulesAcc acc nm v rs

/-- Embeds `Validator.validateFields` (pass 1): fields in declaration
order, skipping fields whose tag is empty. -/
def validateFields (acc : List ValidationError) : List Field → List ValidationError
  | [] => acc
  | f :: fs =>
    if f.tag = "" then validateFields acc fs
    else validateFields (applyRulesAcc acc f.name f.value (goSplit f.tag ',')) fs

/-- The inner loop of `Validator.applyCustomValidators`: look each raw
token up in the registry and, when registered, invoke the function and
append its error (if any). -/
def applyCustomRulesAcc (regs : String → Option (FieldValue → Option String))
    (acc : List ValidationError) (nm : String) (v : FieldValue) :
    List String → List ValidationError
  | [] => acc
  | r :: rs =>
    match regs r with
    | some fn =>
      match fn v with
      | some msg => applyCustomRulesAcc regs (acc ++ [⟨nm, msg⟩]) nm v rs
      | none => applyCustomRulesAcc regs acc nm v rs
    | none => applyCustomRulesAcc regs acc nm v rs

/-- Embeds `Validator.applyCustomValidators` (pass 2). -/
def applyCustomValidators (regs : String → Option (FieldValue → Option String))
    (acc : List ValidationError) : List Field → List ValidationError
  | [] => acc
  | f :: fs =>
    if f.tag = "" then applyCustomValidators regs acc fs
    else applyCustomValidators regs (applyCustomRulesAcc regs acc f.name f.value (goSplit f.tag ',')) fs

/-- The dynamic shape of `Validate`'s input: a pointer to a struct (with
its fields), a pointer to a non-struct value, or a non-pointer value. -/
inductive GoInput where
  | ptrStruct (fields : List Field)
  | ptrNonStruct
  | nonPtr
deriving Repr, DecidableEq

/-- Embeds the `Validator` struct: the instance-held error accumulator and
the custom validator registry (a Go map, modelled by its lookup function). -/
structure Validator where
  errors : List ValidationError
  customValidators : String → Option (FieldValue → Option String)

/-- Embeds `Validator.RegisterCustomValidator`: store or overwrite. -/
def RegisterCustomValidator (v : Validator) (tagVal : String)
    (fn : FieldValue → Option String) : Validator :=
  ⟨v.errors, fun t => if t = tagVal then some fn else v.customValidators t⟩

/-- The outcome of a `Validate` call: the malformed-input error (a plain
`fmt.Errorf` error), the aggregate `ValidationErrors` list, or nil. -/
inductive ValidateResult where
  | malformed (msg : String)
  | invalid (errs : List ValidationError)
  | ok
deriving Repr, DecidableEq

/-- Does the result carry the aggregate `ValidationErrors` list? -/
def ValidateResult.isInvalid : ValidateResult → Bool
  | .invalid _ => true
  | _ => false

/-- Does the result carry a malformed-input error? -/
def ValidateResult.isMalformed : ValidateResult → Bool
  | .malformed _ => true
  | _ => false

/-- Embeds `Validator.Validate`: reset the accumulator, reject non-pointer
and non-struct inputs, run pass 1 then pass 2, and return the aggregate
exactly when it is non-empty.  The returned `Validator` carries the
mutated instance state. -/
def Validate (v : Validator) (s : GoInput) : Validator × ValidateResult :=
  let v0 : Validator := ⟨[], v.customValidators⟩
  match s with
  | .nonPtr => (v0, .malformed "validation requires a struct pointer input")
  | .ptrNonStruct => (v0, .malformed "refOut must be a pointer struct !")
  | .ptrStruct fields =>
    let e1 := validateFields v0.errors fields
    let e2 := applyCustomValidators v.customValidators e1 fields
    let v1 : Validator := ⟨e2, v.customValidators⟩
    if e2.length > 0 then (v1, .invalid e2) else (v1, .ok)

/-!  ## Flattened per-field views of the two passes (for ordering facts) -/

/-- The built-in (pass-1) errors contributed by one field, in token order. -/
def fieldPass1 (f : Field) : List ValidationError :=
  if f.tag = "" then []
  else (goSplit f.tag ',').filterMap fun r =>
    (applyValidationRule r f.value).map fun m => (⟨f.name, m⟩ : ValidationError)

/-- The custom (pass-2) errors contributed by one field, in token order. -/
def fieldPass2 (regs : String → Option (FieldValue → Option String)) (f : Field) :
    List ValidationError :=
  if f.tag = "" then []
  else (goSplit f.tag ',').filterMap fun r =>
    ((regs r).bind fun fn => fn f.value).map fun m => (⟨f.name, m⟩ : ValidationError)

/-- All pass-1 errors, fields in declaration order. -/
def pass1All : List Field → List ValidationError
  | [] => []
  | f :: fs => fieldPass1 f ++ pass1All fs

/-- All pass-2 errors, fields in declaration order. -/
def pass2All (regs : String → Option (FieldValue → Option String)) :
    List Field → List ValidationError
  | [] => []
  | f :: fs => fieldPass2 regs f ++ pass2All regs fs

/-!  ## Helper lemmas -/

theorem splitChar_ne_nil (sep : Char) (cs : List Char) : splitChar sep cs ≠ [] := by
  cases cs with
  | nil => simp [splitChar]
  | cons c rest =>
    unfold splitChar
    cases splitChar sep rest with
    | nil => simp
    | cons g gs => by_cases h : c = sep <;> simp [h]

theorem splitChar_no_sep (sep : Char) (cs : List Char) (h : sep ∉ cs) :
    splitChar sep cs = [cs] := by
  induction cs with
  | nil => rfl
  | cons c rest ih =>
    have hc : c ≠ sep := fun e => h (e ▸ List.mem_cons_self c rest)
    have hr : sep ∉ rest := fun e => h (List.mem_cons_of_mem _ e)
    unfold splitChar
    rw [ih hr]
    simp [hc]

theorem splitChar_append_sep (sep : Char) (a b : List Char) (h : sep ∉ a) :
    splitChar sep (a ++ sep :: b) = a :: splitChar sep b := by
  induction a with
  | nil =>
    simp only [List.nil_append, splitChar]
    cases hb : splitChar sep b with
    | nil => exact absurd hb (splitChar_ne_nil sep b)
    | cons g gs => simp
  | cons c a ih =>
    have hc : c ≠ sep := fun e => h (e ▸ List.mem_cons_self c a)
    have ha : sep ∉ a := fun e => h (List.mem_cons_of_mem _ e)
    simp only [List.cons_append, splitChar, List.append_eq]
    rw [ih ha]
    simp [hc]

theorem applyRulesAcc_eq (nm : String) (v : FieldValue) (rs : List String)
    (acc : List ValidationError) :
    applyRulesAcc acc nm v rs =
      acc ++ rs.filterMap fun r =>
        (applyValidationRule r v).map fun m => (⟨nm, m⟩ : ValidationError) := by
  induction rs generalizing acc with
  | nil => simp [applyRulesAcc]
  | cons r rs ih =>
    unfold applyRulesAcc
    cases h : applyValidationRule r v with
    | none =>
      refine (ih acc).trans ?_
      simp [List.filterMap_cons, h]
    | some msg =>
      refine (ih (acc ++ [⟨nm, msg⟩])).trans ?_
      simp [List.filterMap_cons, h]

theorem validateFields_eq (fs : List Field) (acc : List ValidationError) :
    validateFields acc fs = acc ++ pass1All fs := by
  induction fs generalizing acc with
  | nil => simp [validateFields, pass1All]
  | cons f fs ih =>
    by_cases h : f.tag = "" <;>
      simp [validateFields, pass1All, fieldPass1, h, ih, applyRulesAcc_eq, List.append_assoc]

theorem applyCustomRulesAcc_eq (regs : String → Option (FieldValue → Option String))
    (nm : String) (v : FieldValue) (rs : List String) (acc : List ValidationError) :
    applyCustomRulesAcc regs acc nm v rs =
      acc ++ rs.filterMap fun r =>
        ((regs r).bind fun fn => fn v).map fun m => (⟨nm, m⟩ : ValidationError) := by
  induction rs generalizing acc with
  | nil => simp [applyCustomRulesAcc]
  | cons r rs ih =>
    cases hr : regs r with
    | none =>
      have hl : applyCustomRulesAcc regs acc nm v (r :: rs)
          = applyCustomRulesAcc regs acc nm v rs := by
        conv_lhs => unfold applyCustomRulesAcc
        simp only [hr]
      rw [hl]
      refine (ih acc).trans ?_
      simp [List.filterMap_cons, hr]
    | some fn =>
      cases hf : fn v with
      | none =>
        have hl : applyCustomRulesAcc regs acc nm v (r :: rs)
            = applyCustomRulesAcc regs acc nm v rs := by
          conv_lhs => unfold applyCustomRulesAcc
          simp only [hr, hf]
        rw [hl]
        refine (ih acc).trans ?_
        simp [List.filterMap_cons, hr, hf]
      | some msg =>
        have hl : applyCustomRulesAcc regs acc nm v (r :: rs)
            = applyCustomRulesAcc regs (acc ++ [⟨nm, msg⟩]) nm v rs := by
          conv_lhs => unfold applyCustomRulesAcc
          simp only [hr, hf]
        rw [hl]
        refine (ih (acc ++ [⟨nm, msg⟩])).trans ?_
        simp [List.filterMap_cons, hr, hf]

theorem applyCustomValidators_eq (regs : String → Option (FieldValue → Option String))
    (fs : List Field) (acc : List ValidationError) :
    applyCustomValidators regs acc fs = acc ++ pass2All regs fs := by
  induction fs generalizing acc with
  | nil => simp [applyCustomValidators, pass2All]
  | cons f fs ih =>
    by_cases h : f.tag = "" <;>
      simp [applyCustomValidators, pass2All, fieldPass2, h, ih, applyCustomRulesAcc_eq,
        List.append_assoc]

theorem Validate_ptrStruct (v : Validator) (fs : List Field) :
    (Validate v (.ptrStruct fs)).2 =
      if 0 < (pass1All fs ++ pass2All v.customValidators fs).length
      then .invalid (pass1All fs ++ pass2All v.customValidators fs) else .ok := by
  have he : applyCustomValidators v.customValidators (validateFields [] fs) fs
      = pass1All fs ++ pass2All v.customValidators fs := by
    rw [validateFields_eq, applyCustomValidators_eq, List.nil_append]
  simp only [Validate]
  rw [he]
  split <;> rfl

/-!  ## Claim theorems -/

/-- C1: for a record with field Name of text kind annotated only `required`
holding the empty string, and field Age of integer kind annotated
`min=18,max=100` holding 15, Validate on a pointer to that record returns
the aggregate list whose rendered text is exactly
"Name : field is required; Age : value must be at least 18", one
"field : message" clause per accumulated error, joined with "; " in
accumulation order. -/
theorem C1_end_to_end :
    (Validate ⟨[], fun _ => none⟩
        (.ptrStruct [⟨"Name", "required", .str ""⟩, ⟨"Age", "min=18,max=100", .int 15⟩])).2
      = .invalid [⟨"Name", "field is required"⟩, ⟨"Age", "value must be at least 18"⟩]
  ∧ errorString [⟨"Name", "field is required"⟩, ⟨"Age", "value must be at least 18"⟩]
      = "Name : field is required; Age : value must be at least 18" :=
  ⟨by decide, by decide⟩

/-- C2: for every input that is not a pointer, or is a pointer whose
referent is not a struct, Validate returns the corresponding
malformed-input error immediately; being built by the `malformed`
constructor, such a result never carries a ValidationErrors list. -/
theorem C2_malformed_input (v : Validator) :
    (Validate v .nonPtr).2 = .malformed "validation requires a struct pointer input"
  ∧ (Validate v .ptrNonStruct).2 = .malformed "refOut must be a pointer struct !"
  ∧ (∀ msg : String, (ValidateResult.malformed msg).isInvalid = false) :=
  ⟨rfl, rfl, fun _ => rfl⟩

/-- C3 (counterexample): on the record field Age holding 150 annotated
`min=18,max=100`, the max failure message is the bad-verb rendering
"value must be at least %!d(string=min)" — it neither mirrors the min
bound's value 18 nor reports the max bound 100, contradicting the claim
that the message reuses the min bound's value in "...at least N" form. -/
theorem C3_cex :
    (Validate ⟨[], fun _ => none⟩ (.ptrStruct [⟨"Age", "min=18,max=100", .int 150⟩])).2
      = .invalid [⟨"Age", "value must be at least %!d(string=min)"⟩]
  ∧ ("value must be at least %!d(string=min)" ≠ "value must be at least 18")
  ∧ ("value must be at least %!d(string=min)" ≠ "value must be at least 100") :=
  ⟨by decide, by decide, by decide⟩

/-- C3 (amended): for every parsable max parameter N, the max rule fails
exactly when the text's byte length (text kind) or the numeric value
(integer kind) exceeds N; its failure message is the constant
"... must be at least %!d(string=min)" — the `min` rule-name string
constant rendered through fmt's %d verb — not the min bound's value.
The min rule, by contrast, reports its own bound N. -/
theorem C3_max_semantics (p : String) (N : Int) (s : String) (n : Int)
    (h : goAtoi p = some N) :
    validateMax (.str s) p
        = (if (goLen s : Int) > N then some "length must be at least %!d(string=min)" else none)
  ∧ validateMax (.int n) p
        = (if n > N then some "value must be at least %!d(string=min)" else none)
  ∧ validateMin (.str s) p
        = (if (goLen s : Int) < N then some ("length must be at least " ++ toString N) else none)
  ∧ validateMin (.int n) p
        = (if n < N then some ("value must be at least " ++ toString N) else none) := by
  unfold validateMax validateMin
  rw [h]
  exact ⟨rfl, rfl, rfl, rfl⟩

/-- Witness for C3_max_semantics at p = "3", s = "abcd", n = 5. -/
theorem C3_max_semantics_witness :
    goAtoi "3" = some 3
  ∧ (validateMax (.str "abcd") "3"
        = (if (goLen "abcd" : Int) > 3 then some "length must be at least %!d(string=min)" else none)
     ∧ validateMax (.int 5) "3"
        = (if (5 : Int) > 3 then some "value must be at least %!d(string=min)" else none)
     ∧ validateMin (.str "abcd") "3"
        = (if (goLen "abcd" : Int) < 3 then some ("length must be at least " ++ toString (3 : Int)) else none)
     ∧ validateMin (.int 5) "3"
        = (if (5 : Int) < 3 then some ("value must be at least " ++ toString (3 : Int)) else none)) :=
  ⟨by decide, C3_max_semantics "3" 3 "abcd" 5 (by decide)⟩

/-- C8: for every valid record pointer, the aggregate is built with no
short-circuiting, in the fixed order: all built-in (pass-1) failures,
fields in declaration order and tokens in annotation order inside each
field, followed by all custom (pass-2) failures in the same order; the
call returns exactly that aggregate when it is non-empty. -/
theorem C8_pipeline_order (v : Validator) (fs : List Field) :
    (Validate v (.ptrStruct fs)).2 =
      if pass1All fs ++ pass2All v.customValidators fs = [] then .ok
      else .invalid (pass1All fs ++ pass2All v.customValidators fs) := by
  rw [Validate_ptrStruct]
  cases h : pass1All fs ++ pass2All v.customValidators fs with
  | nil => simp
  | cons e es => simp

/-- C9: the error accumulator is call-scoped: the result of a Validate
call depends only on the registered custom validators and the input, so
errors accumulated by an earlier call never leak into a later call, and
repeating a call on the instance returned by Validate gives the same
result. -/
theorem C9_call_scoped :
    (∀ (v1 v2 : Validator) (s : GoInput), v1.customValidators = v2.customValidators →
       (Validate v1 s).2 = (Validate v2 s).2)
  ∧ (∀ (v : Validator) (s : GoInput), (Validate (Validate v s).1 s).2 = (Validate v s).2) := by
  have main : ∀ (v1 v2 : Validator) (s : GoInput),
      v1.customValidators = v2.customValidators → (Validate v1 s).2 = (Validate v2 s).2 := by
    intro v1 v2 s h
    cases s with
    | nonPtr => rfl
    | ptrNonStruct => rfl
    | ptrStruct fs =>
      simp only [Validate]
      rw [h]
  have hreg : ∀ (v : Validator) (s : GoInput),
      (Validate v s).1.customValidators = v.customValidators := by
    intro v s
    cases s with
    | nonPtr => rfl
    | ptrNonStruct => rfl
    | ptrStruct fs =>
      simp only [Validate]
      split <;> rfl
  exact ⟨main, fun v s => main _ _ s (hreg v s)⟩

/-- Witness for C9_call_scoped: two instances with different accumulated
errors but the same registry give the same result. -/
theorem C9_call_scoped_witness :
    (Validator.mk [⟨"X", "Y"⟩] fun _ => none).customValidators
      = (Validator.mk [] fun _ => none).customValidators
  ∧ (Validate (Validator.mk [⟨"X", "Y"⟩] fun _ => none) GoInput.nonPtr).2
      = (Validate (Validator.mk [] fun _ => none) GoInput.nonPtr).2 :=
  ⟨rfl, C9_call_scoped.1 _ _ GoInput.nonPtr rfl⟩

/-- C10: for every integer-kind field annotated `email`, validation emits
"invalid email format" regardless of the numeric value, because the
reflected string form of an int-kind value is the placeholder
"<int Value>", which never matches the email pattern. -/
theorem C10_email_int_kind (n : Int) (q : String) :
    ruleSwitch "email" q (.int n) = some "invalid email format"
  ∧ goString (.int n) = "<int Value>"
  ∧ isMatchedRegex "<int Value>" emailRegexPattern = false
  ∧ (Validate ⟨[], fun _ => none⟩ (.ptrStruct [⟨"Email", "email", .int n⟩])).2
      = .invalid [⟨"Email", "invalid email format"⟩] := by
  have hm : isMatchedRegex "<int Value>" emailRegexPattern = false := by decide
  have hrule : ∀ p : String, ruleSwitch "email" p (FieldValue.int n) = some "invalid email format" := by
    intro p
    unfold ruleSwitch
    rw [if_neg (by decide : ¬("email" : String) = "required"),
      if_neg (by decide : ¬("email" : String) = "min"),
      if_neg (by decide : ¬("email" : String) = "max"),
      if_pos rfl]
    show (if isMatchedRegex "<int Value>" emailRegexPattern = true then none
      else some "invalid email format") = some "invalid email format"
    rw [hm]
    rfl
  refine ⟨hrule q, rfl, hm, ?_⟩
  have happ : applyValidationRule "email" (FieldValue.int n) = some "invalid email format" := by
    unfold applyValidationRule
    rw [show tokenizeRule "email" = ("email", "") from by decide]
    exact hrule ""
  have h1 : pass1All [⟨"Email", "email", FieldValue.int n⟩]
      = [⟨"Email", "invalid email format"⟩] := by
    simp [pass1All, fieldPass1, show goSplit "email" ',' = ["email"] from by decide, happ]
  have h2 : pass2All (fun _ => none) [⟨"Email", "email", FieldValue.int n⟩] = [] := by
    simp [pass2All, fieldPass2]
  rw [Validate_ptrStruct]
  rw [show (Validator.mk [] fun _ => none).customValidators = fun _ => none from rfl, h1, h2]
  rfl

/-- C5 (counterexample): for the invalid pattern "[" the regex rule yields
exactly the ordinary validation-failure entry
"value does not match required format" — byte-identical to the entry
produced by a valid pattern that simply does not match — so the
configuration error is NOT surfaced distinctly from a validation
failure. -/
theorem C5_cex :
    (Validate ⟨[], fun _ => none⟩ (.ptrStruct [⟨"Code", "regex=[", .str "abc"⟩])).2
      = .invalid [⟨"Code", "value does not match required format"⟩]
  ∧ (Validate ⟨[], fun _ => none⟩ (.ptrStruct [⟨"Code", "regex=^z$", .str "abc"⟩])).2
      = .invalid [⟨"Code", "value does not match required format"⟩]
  ∧ parseGoRegex "[" = none :=
  ⟨by decide, by decide, by decide⟩

/-- C5 (amended): an invalid regex pattern is silently treated as
"no match", so the rule reports the ordinary validation-failure message
for that field — proved for a set of representative patterns that Go's
regexp.Compile rejects (unterminated class, reversed class range,
reversed and oversized repeat counts, repetition without an operand,
trailing backslash, doubled repeat operator); unparsable min/max
parameters are surfaced as the field-level entries "invalid min value" /
"invalid max value"; none of these configuration errors aborts the call —
a struct-pointer input never produces a malformed-input result. -/
theorem C5_config_errors :
    (∀ pat ∈ (["[", "[z-a]", "a\x7b2,1\x7d", "a\x7b1001\x7d", "*", "\\", "a**"] : List String),
       parseGoRegex pat = none
     ∧ ∀ v : FieldValue, ruleSwitch "regex" pat v = some "value does not match required format")
  ∧ (∀ (q : String) (v : FieldValue), goAtoi q = none →
       ruleSwitch "min" q v = some "invalid min value"
     ∧ ruleSwitch "max" q v = some "invalid max value")
  ∧ (∀ (v : Validator) (fs : List Field),
       ((Validate v (.ptrStruct fs)).2).isMalformed = false) := by
  have hsub : ∀ (pat : String) (v : FieldValue), parseGoRegex pat = none →
      ruleSwitch "regex" pat v = some "value does not match required format" := by
    intro pat v h
    unfold ruleSwitch
    rw [if_neg (by decide : ¬("regex" : String) = "required"),
      if_neg (by decide : ¬("regex" : String) = "min"),
      if_neg (by decide : ¬("regex" : String) = "max"),
      if_neg (by decide : ¬("regex" : String) = "email"),
      if_pos rfl]
    have hm : isMatchedRegex (goString v) pat = false := by
      unfold isMatchedRegex
      rw [h]
    rw [hm]
    rfl
  refine ⟨?_, ?_, ?_⟩
  · intro pat hmem
    have hnone : parseGoRegex pat = none := by
      simp only [List.mem_cons, List.not_mem_nil, or_false] at hmem
      rcases hmem with rfl | rfl | rfl | rfl | rfl | rfl | rfl
      all_goals decide
    exact ⟨hnone, fun v => hsub pat v hnone⟩
  · intro q v h
    constructor
    · unfold ruleSwitch
      rw [if_neg (by decide : ¬("min" : String) = "required"), if_pos rfl]
      unfold validateMin
      rw [h]
    · unfold ruleSwitch
      rw [if_neg (by decide : ¬("max" : String) = "required"),
        if_neg (by decide : ¬("max" : String) = "min"), if_pos rfl]
      unfold validateMax
      rw [h]
  · intro v fs
    rw [Validate_ptrStruct]
    split <;> rfl

/-- Witness for C5_config_errors at pattern "[" and parameter "x". -/
theorem C5_config_errors_witness :
    (("[" : String) ∈ (["[", "[z-a]", "a\x7b2,1\x7d", "a\x7b1001\x7d", "*", "\\", "a**"] : List String))
  ∧ parseGoRegex "[" = none
  ∧ ruleSwitch "regex" "[" (.str "abc") = some "value does not match required format"
  ∧ goAtoi "x" = none
  ∧ (ruleSwitch "min" "x" (.str "abc") = some "invalid min value"
     ∧ ruleSwitch "max" "x" (.str "abc") = some "invalid max value") :=
  ⟨by decide, (C5_config_errors.1 "[" (by decide)).1,
    (C5_config_errors.1 "[" (by decide)).2 (.str "abc"), by decide,
    C5_config_errors.2.1 "x" (.str "abc") (by decide)⟩

/-- C6 (counterexample): the code trims only the space character, not all
whitespace: the token "\trequired" keeps its leading tab, so it matches no
rule name and a zero-valued required field produces NO error, while under
whitespace-trimming (wsTrim, the spec's wording) the token would be
"required" and would fail, as the space-padded variant does. -/
theorem C6_cex :
    goTrimSpace "\trequired" = "\trequired"
  ∧ wsTrim "\trequired" = "required"
  ∧ (Validate ⟨[], fun _ => none⟩ (.ptrStruct [⟨"Name", "\trequired", .str ""⟩])).2 = .ok
  ∧ (Validate ⟨[], fun _ => none⟩ (.ptrStruct [⟨"Name", " required", .str ""⟩])).2
      = .invalid [⟨"Name", "field is required"⟩] :=
  ⟨by decide, by decide, by decide, by decide⟩

/-- C6 (amended): tokenization splits the annotation on `,`, then each
token on `=`: a token "name=p1=p2" yields parameter p1 (text after the
second `=` dropped), absence of `=` yields the empty parameter, and SPACE
characters (only U+0020, not all whitespace) are trimmed around name and
parameter; a field whose annotation is empty is excluded from both passes
entirely. -/
theorem C6_tokenization :
    (∀ a b c : List Char, '=' ∉ a → '=' ∉ b → '=' ∉ c →
       tokenizeRule (String.mk (a ++ '=' :: (b ++ '=' :: c)))
         = (goTrimSpace (String.mk a), goTrimSpace (String.mk b)))
  ∧ (∀ a : List Char, '=' ∉ a →
       tokenizeRule (String.mk a) = (goTrimSpace (String.mk a), ""))
  ∧ (∀ t1 t2 : List Char, ',' ∉ t1 →
       splitChar ',' (t1 ++ ',' :: t2) = t1 :: splitChar ',' t2)
  ∧ (∀ (regs : String → Option (FieldValue → Option String))
       (acc : List ValidationError) (f : Field) (fs : List Field), f.tag = "" →
       validateFields acc (f :: fs) = validateFields acc fs
     ∧ applyCustomValidators regs acc (f :: fs) = applyCustomValidators regs acc fs) := by
  refine ⟨?_, ?_, ?_, ?_⟩
  · intro a b c ha hb hc
    have hs : goSplit (String.mk (a ++ '=' :: (b ++ '=' :: c))) '='
        = String.mk a :: String.mk b :: (splitChar '=' c).map String.mk := by
      show (splitChar '=' (a ++ '=' :: (b ++ '=' :: c))).map String.mk = _
      rw [splitChar_append_sep '=' a _ ha, splitChar_append_sep '=' b c hb]
      rfl
    unfold tokenizeRule
    rw [hs]
    rfl
  · intro a ha
    have hs : goSplit (String.mk a) '=' = [String.mk a] := by
      show (splitChar '=' a).map String.mk = _
      rw [splitChar_no_sep '=' a ha]
      rfl
    unfold tokenizeRule
    rw [hs]
    rfl
  · intro t1 t2 h
    exact splitChar_append_sep ',' t1 t2 h
  · intro regs acc f fs h
    constructor
    · conv_lhs => unfold validateFields
      rw [if_pos h]
    · conv_lhs => unfold applyCustomValidators
      rw [if_pos h]

/-- Witness for C6_tokenization at the token "min=1=2". -/
theorem C6_tokenization_witness :
    ((['m', 'i', 'n'] : List Char).contains '=' = false)
  ∧ tokenizeRule (String.mk (['m', 'i', 'n'] ++ '=' :: (['1'] ++ '=' :: ['2'])))
      = (goTrimSpace (String.mk ['m', 'i', 'n']), goTrimSpace (String.mk ['1'])) :=
  ⟨by decide, C6_tokenization.1 ['m', 'i', 'n'] ['1'] ['2'] (by decide) (by decide) (by decide)⟩

/-- C7: pass 2 invokes a registered custom function exactly once per
occurrence of its literal full token text (name plus any `=parameter`
suffix, unparsed), appending its error when non-nil, independently of the
built-in outcome for that token; a rule name outside the built-in table is
a no-op in pass 1; tokens absent from the registry contribute nothing to
pass 2, so an unregistered unknown token never invokes anything and never
produces an error. -/
theorem C7_custom_dispatch :
    (∀ (regs : String → Option (FieldValue → Option String)) (acc : List ValidationError)
       (nm : String) (v : FieldValue) (rs : List String),
       applyCustomRulesAcc regs acc nm v rs =
         acc ++ rs.filterMap fun r =>
           ((regs r).bind fun fn => fn v).map fun m => (⟨nm, m⟩ : ValidationError))
  ∧ (∀ (ruleName ruleValue : String) (v : FieldValue),
       ruleName ∉ (["required", "min", "max", "email", "regex"] : List String) →
       ruleSwitch ruleName ruleValue v = none)
  ∧ (∀ (regs : String → Option (FieldValue → Option String)) (acc : List ValidationError)
       (nm : String) (v : FieldValue) (rs : List String),
       (∀ r ∈ rs, regs r = none) → applyCustomRulesAcc regs acc nm v rs = acc) := by
  refine ⟨fun regs acc nm v rs => applyCustomRulesAcc_eq regs nm v rs acc, ?_, ?_⟩
  · intro rn rv v h
    simp only [List.mem_cons, not_or] at h
    obtain ⟨h1, h2, h3, h4, h5, _⟩ := h
    unfold ruleSwitch
    rw [if_neg h1, if_neg h2, if_neg h3, if_neg h4, if_neg h5]
  · intro regs acc nm v rs h
    rw [applyCustomRulesAcc_eq]
    have hnil : (rs.filterMap fun r =>
        ((regs r).bind fun fn => fn v).map fun m => (⟨nm, m⟩ : ValidationError)) = [] := by
      rw [List.filterMap_eq_nil_iff]
      intro x hx
      rw [h x hx]
      rfl
    rw [hnil, List.append_nil]

/-- Witness for C7_custom_dispatch at the unknown token "unknown_rule". -/
theorem C7_custom_dispatch_witness :
    ((["required", "min", "max", "email", "regex"] : List String).contains "unknown_rule" = false)
  ∧ ruleSwitch "unknown_rule" "" (.str "x") = none
  ∧ applyCustomRulesAcc (fun _ => none) [] "F" (.str "x") ["unknown_rule"] = [] :=
  ⟨by decide, C7_custom_dispatch.2.1 "unknown_rule" "" (.str "x") (by decide),
    C7_custom_dispatch.2.2 (fun _ => none) [] "F" (.str "x") ["unknown_rule"] fun r _ => rfl⟩

end GoFV
